import Mathlib

/-!
Shallow embedding of the cooperative tick-driven scheduler in
`src/sgermino/Ejer5/src/copos.c`, together with theorems settling the
behavioural claims about it.

Machine integers: `delay` and `period` are `uint32_t` in the C API
(`schedulerAddTask`, `schedulerModifyTaskPeriod` take `uint32_t` parameters),
so they are modelled as natural numbers reduced modulo `2^32`; the C
pre-decrement `-- t->delay` on an unsigned value wraps `0` to `2^32 - 1`,
which the embedding reproduces exactly.  Pointers (`pTask`, `context`) are
modelled as opaque numeric handles, with `0` playing the role of `NULL`.
-/

namespace Copos

/-- `2^32`, the modulus of the `uint32_t` fields of a task. -/
def U32 : Nat := 4294967296

/-- Modelled from the spec: the struct `sTask_t` is declared in the header
`copos.h`, which is not part of the sources; its fields are taken from the
spec data model (callable handle, opaque context, delay, period, due count)
and from the way `copos.c` reads and writes them.  `delay` and `period` hold
32-bit unsigned values, matching the `uint32_t` parameters of
`schedulerAddTask` and `schedulerModifyTaskPeriod`; `pTask = 0` models a
`NULL` function pointer, i.e. a free slot. -/
structure STask where
  pTask : Nat
  context : Nat
  delay : Nat
  period : Nat
  runMe : Nat
deriving DecidableEq

/-- The all-zero task value produced by `memset (&task, 0, sizeof(sTask_t))`. -/
def emptyTask : STask := ⟨0, 0, 0, 0, 0⟩

/-- The global scheduler state: the task array `schedulerTasks` (of length
`SCHEDULER_MAX_TASKS`, which is a configuration constant from the missing
header and is therefore kept symbolic as the list length) and the global
`errorCode` variable. -/
structure SchedState where
  tasks : List STask
  errorCode : Nat
deriving DecidableEq

/-- `schedulerInit`: deletes every slot (leaving it zeroed) and resets the
global error variable, yielding an all-empty table with `errorCode = 0`. -/
def schedulerInit (cap : Nat) : SchedState :=
  ⟨List.replicate cap emptyTask, 0⟩

/-- The body of the `schedulerUpdate` loop for a single slot:
`if (!t->pTask || -- t->delay > 0) continue;  ++ t->runMe;
if (t->period) t->delay = t->period;`.
The pre-decrement acts on a `uint32_t`, so `delay = 0` wraps to `2^32 - 1`
(and then the task is not due, since the wrapped value is positive). -/
def updateTask (t : STask) : STask :=
  if t.pTask = 0 then t
  else
    if 0 < (t.delay + (U32 - 1)) % U32 then
      { t with delay := (t.delay + (U32 - 1)) % U32 }
    else
      { t with delay := if t.period = 0 then 0 else t.period,
               runMe := t.runMe + 1 }

/-- `schedulerUpdate` (the scheduler ISR): applies `updateTask` to every
slot of the table.  The loop body touches only slot `i`, so it is a map. -/
def schedulerUpdate (s : SchedState) : SchedState :=
  { s with tasks := s.tasks.map updateTask }

/-- The linear scan of `schedulerAddTask`: index of the first slot whose
`pTask` is `NULL`, if any. -/
def firstFree : List STask → Option Nat
  | [] => none
  | t :: ts => if t.pTask = 0 then some 0 else (firstFree ts).map (· + 1)

/-- `schedulerAddTask`: scans for the first free slot; if none exists it
sets `errorCode = 2` and returns `SCHEDULER_MAX_TASKS` (the table length);
otherwise it writes the slot with the given fields and `runMe = 0` and
returns the index.  The `uint32_t` parameters `delay` and `period` are
reduced modulo `2^32` at the call boundary. -/
def schedulerAddTask (pFunction context delay period : Nat) (s : SchedState) :
    Nat × SchedState :=
  match firstFree s.tasks with
  | none => (s.tasks.length, { s with errorCode := 2 })
  | some i =>
      (i, { s with
              tasks := s.tasks.set i
                ⟨pFunction, context, delay % U32, period % U32, 0⟩ })

/-- `schedulerModifyTaskPeriod`: rejects an out-of-range index or an empty
slot with `-1` (without touching anything, in particular without setting
`errorCode`); otherwise stores the new period and returns `0`. -/
def schedulerModifyTaskPeriod (taskIndex newPeriod : Nat) (s : SchedState) :
    Int × SchedState :=
  if s.tasks.length ≤ taskIndex then (-1, s)
  else if (s.tasks.getD taskIndex emptyTask).pTask = 0 then (-1, s)
  else
    (0, { s with
            tasks := s.tasks.set taskIndex
              { s.tasks.getD taskIndex emptyTask with
                  period := newPeriod % U32 } })

/-- `schedulerDeleteTask`: rejects an out-of-range index with `-1` (and no
other effect); on an empty slot sets `errorCode = 2`, zeroes the slot and
returns `-1`; on an occupied slot zeroes it and returns `0`. -/
def schedulerDeleteTask (taskIndex : Nat) (s : SchedState) :
    Int × SchedState :=
  if s.tasks.length ≤ taskIndex then (-1, s)
  else
    if (s.tasks.getD taskIndex emptyTask).pTask = 0 then
      (-1, ⟨s.tasks.set taskIndex emptyTask, 2⟩)
    else
      (0, { s with tasks := s.tasks.set taskIndex emptyTask })

/-- The body of the `schedulerDispatchTasks` loop for one slot.  Returns the
new slot contents, the list of invocations `t->pTask (t->context, ticks)`
performed (at most one), and whether the embedded `schedulerDeleteTask`
call of the one-shot branch set the global error code (which happens only
when the invoked slot had a `NULL` callable).  Callables are modelled as
opaque: the invocation is recorded rather than executed. -/
def dispatchTask (ticks : Nat) (t : STask) :
    STask × List (Nat × Nat × Nat) × Bool :=
  if 0 < t.runMe then
    if t.period = 0 then
      (emptyTask, [(t.pTask, t.context, ticks)], t.pTask = 0)
    else
      ({ t with runMe := t.runMe - 1 }, [(t.pTask, t.context, ticks)], false)
  else
    (t, [], false)

/-- `schedulerDispatchTasks`: one dispatcher pass over the table.  Each
iteration reads and writes only slot `i`, so the pass is a map; the result
is the new state together with the ordered list of invocations performed.
(The trailing `schedulerReportStatus()` is compiled out — its state
variables are commented out in this source — and `__WFI()` is external.) -/
def schedulerDispatchTasks (ticks : Nat) (s : SchedState) :
    SchedState × List (Nat × Nat × Nat) :=
  ( { tasks := (s.tasks.map (dispatchTask ticks)).map (·.1),
      errorCode :=
        if (s.tasks.map (dispatchTask ticks)).any (·.2.2) then 2
        else s.errorCode },
    ((s.tasks.map (dispatchTask ticks)).map (·.2.1)).flatten )

/-- One step of the scheduler system: a tick update (interrupt context), a
Registry call, or a dispatcher pass, as in the claims' operation set. -/
inductive Step : SchedState → SchedState → Prop where
  | update (s : SchedState) : Step s (schedulerUpdate s)
  | add (f c d p : Nat) (s : SchedState) : Step s (schedulerAddTask f c d p s).2
  | del (i : Nat) (s : SchedState) : Step s (schedulerDeleteTask i s).2
  | modifyPeriod (i p : Nat) (s : SchedState) :
      Step s (schedulerModifyTaskPeriod i p s).2
  | dispatch (ticks : Nat) (s : SchedState) :
      Step s (schedulerDispatchTasks ticks s).1

/-- A state reachable from `schedulerInit` by Registry calls, tick updates
and dispatcher passes. -/
def Reachable (cap : Nat) (s : SchedState) : Prop :=
  Relation.ReflTransGen Step (schedulerInit cap) s

/-- Every slot with a positive due count holds a non-`NULL` callable. -/
def DueImpliesOccupied (s : SchedState) : Prop :=
  ∀ t ∈ s.tasks, 0 < t.runMe → t.pTask ≠ 0

/-- No invocation of a dispatcher pass on `s` calls a `NULL` callable. -/
def NoNullInvocation (ticks : Nat) (s : SchedState) : Prop :=
  ∀ e ∈ (schedulerDispatchTasks ticks s).2, e.1 ≠ 0

/-- Number of occupied slots of a table. -/
def occupiedCount (l : List STask) : Nat :=
  (l.filter (fun t => t.pTask ≠ 0)).length

/-- Every slot of the table is zeroed. -/
def AllEmpty (s : SchedState) : Prop :=
  ∀ t ∈ s.tasks, t = emptyTask

/-! ### Basic facts about the unsigned decrement and single-slot updates -/

lemma U32_pos : 0 < U32 := by decide

lemma dec32_of_pos {d : Nat} (h1 : 1 ≤ d) (h2 : d < U32) :
    (d + (U32 - 1)) % U32 = d - 1 := by
  have h : d + (U32 - 1) = U32 + (d - 1) := by
    have : 1 ≤ U32 := U32_pos
    omega
  rw [h, Nat.add_mod_left, Nat.mod_eq_of_lt]
  omega

lemma updateTask_pTask (t : STask) : (updateTask t).pTask = t.pTask := by
  unfold updateTask
  split
  · rfl
  · split <;> rfl

lemma updateTask_empty : updateTask emptyTask = emptyTask := by decide

lemma updateTask_decrement {t : STask} (hocc : t.pTask ≠ 0)
    (h1 : 2 ≤ t.delay) (h2 : t.delay < U32) :
    updateTask t = { t with delay := t.delay - 1 } := by
  unfold updateTask
  rw [if_neg hocc, dec32_of_pos (by omega) h2, if_pos (by omega)]

lemma updateTask_fire {t : STask} (hocc : t.pTask ≠ 0) (h1 : t.delay = 1) :
    updateTask t = { t with delay := if t.period = 0 then 0 else t.period,
                            runMe := t.runMe + 1 } := by
  have h : (1 + (U32 - 1)) % U32 = 0 := by decide
  unfold updateTask
  rw [if_neg hocc, h1, h, if_neg (by omega)]

lemma updateTask_wrap {t : STask} (hocc : t.pTask ≠ 0) (h1 : t.delay = 0) :
    updateTask t = { t with delay := U32 - 1 } := by
  have h : (0 + (U32 - 1)) % U32 = U32 - 1 := by decide
  unfold updateTask
  rw [if_neg hocc, h1, h, if_pos (by decide)]

lemma updateTask_countdown {t : STask} (hocc : t.pTask ≠ 0)
    (h2 : t.delay < U32) :
    ∀ n, n < t.delay → updateTask^[n] t = { t with delay := t.delay - n } := by
  intro n
  induction n with
  | zero => intro _; simp
  | succ n ih =>
      intro hn
      rw [Function.iterate_succ_apply', ih (by omega),
        updateTask_decrement (t := { t with delay := t.delay - n }) hocc
          (by simp; omega) (by simp; omega)]
      simp
      omega

lemma updateTask_fireStep {t : STask} (hocc : t.pTask ≠ 0)
    (h1 : 1 ≤ t.delay) (h2 : t.delay < U32) :
    updateTask^[t.delay] t =
      { t with delay := if t.period = 0 then 0 else t.period,
               runMe := t.runMe + 1 } := by
  have hd : t.delay = (t.delay - 1) + 1 := by omega
  rw [hd, Function.iterate_succ_apply',
    updateTask_countdown hocc h2 (t.delay - 1) (by omega),
    updateTask_fire (t := { t with delay := t.delay - (t.delay - 1) }) hocc
      (by simp; omega)]

lemma updateTask_cycle {f c P r : Nat} (hf : f ≠ 0) (hP1 : 1 ≤ P)
    (hP2 : P < U32) :
    updateTask^[P] (⟨f, c, P, P, r⟩ : STask) = ⟨f, c, P, P, r + 1⟩ := by
  have h := updateTask_fireStep (t := (⟨f, c, P, P, r⟩ : STask)) hf hP1 hP2
  simp at h
  rw [h, if_neg (by omega)]

lemma updateTask_cycles {f c P r : Nat} (hf : f ≠ 0) (hP1 : 1 ≤ P)
    (hP2 : P < U32) (q : Nat) :
    updateTask^[P * q] (⟨f, c, P, P, r⟩ : STask) = ⟨f, c, P, P, r + q⟩ := by
  induction q generalizing r with
  | zero => simp
  | succ q ih =>
      have h : P * (q + 1) = P * q + P := by ring
      rw [h, Function.iterate_add_apply, updateTask_cycle hf hP1 hP2, ih]
      congr 1
      omega

/-- Closed form of the evolution of a periodic slot registered with
`delay = D ≥ 1` and `period = P ≥ 1` under `n` tick updates. -/
lemma periodic_state {f c D P : Nat} (hf : f ≠ 0) (hD1 : 1 ≤ D)
    (hD2 : D < U32) (hP1 : 1 ≤ P) (hP2 : P < U32) (n : Nat) :
    updateTask^[n] (⟨f, c, D, P, 0⟩ : STask) =
      if n < D then ⟨f, c, D - n, P, 0⟩
      else ⟨f, c, P - (n - D) % P, P, (n - D) / P + 1⟩ := by
  by_cases hn : n < D
  · rw [if_pos hn, updateTask_countdown hf hD2 n hn]
  · rw [if_neg hn]
    have hmod := Nat.div_add_mod (n - D) P
    have hmlt : (n - D) % P < P := Nat.mod_lt _ (by omega)
    have hfire := updateTask_fireStep (t := (⟨f, c, D, P, 0⟩ : STask)) hf hD1 hD2
    simp only [if_neg (by omega : ¬ P = 0)] at hfire
    have hsplit : n = (n - D) % P + (P * ((n - D) / P) + D) := by omega
    rw [show updateTask^[n] (⟨f, c, D, P, 0⟩ : STask)
          = updateTask^[(n - D) % P + (P * ((n - D) / P) + D)]
              (⟨f, c, D, P, 0⟩ : STask) from by rw [← hsplit],
      Function.iterate_add_apply, Function.iterate_add_apply, hfire,
      updateTask_cycles hf hP1 hP2]
    by_cases hm : (n - D) % P = 0
    · rw [hm]
      simp
      omega
    · rw [updateTask_countdown hf (by simpa using hP2) _ (by simpa using hmlt)]
      simp
      omega
/-- C1 (amended to `D ≥ 1`): a periodic slot registered with delay `D ≥ 1`
and period `P ≥ 1` has its due count incremented by the tick updater at
exactly the ticks `D, D + P, D + 2P, …` after registration, indefinitely
(the slot stays registered), with `delay` reloaded to `P` at each expiry. -/
theorem periodic_task_fires_at_delay_then_every_period
    (f c D P n : Nat) (hf : f ≠ 0) (hD1 : 1 ≤ D) (hD2 : D < U32)
    (hP1 : 1 ≤ P) (hP2 : P < U32) (hn : 1 ≤ n) :
    ((∃ k, n = D + P * k) →
        (updateTask^[n] (⟨f, c, D, P, 0⟩ : STask)).runMe
          = (updateTask^[n - 1] (⟨f, c, D, P, 0⟩ : STask)).runMe + 1
        ∧ (updateTask^[n] (⟨f, c, D, P, 0⟩ : STask)).delay = P
        ∧ (updateTask^[n] (⟨f, c, D, P, 0⟩ : STask)).pTask = f)
    ∧ ((¬ ∃ k, n = D + P * k) →
        (updateTask^[n] (⟨f, c, D, P, 0⟩ : STask)).runMe
          = (updateTask^[n - 1] (⟨f, c, D, P, 0⟩ : STask)).runMe) := by
  have hdm := Nat.div_add_mod (n - D) P
  have hmlt : (n - D) % P < P := Nat.mod_lt _ (by omega)
  constructor
  · rintro ⟨k, rfl⟩
    rw [periodic_state hf hD1 hD2 hP1 hP2, periodic_state hf hD1 hD2 hP1 hP2]
    rcases Nat.eq_zero_or_pos k with hk | hk
    · subst hk
      rw [if_neg (by omega), if_pos (by omega)]
      dsimp only
      have h0 : D + P * 0 - D = 0 := by omega
      rw [h0]
      simp
    · obtain ⟨j, rfl⟩ : ∃ j, k = j + 1 := ⟨k - 1, by omega⟩
      have hPj : P * (j + 1) = P * j + P := by ring
      rw [if_neg (by omega), if_neg (by omega)]
      dsimp only
      have e1 : D + P * (j + 1) - D = P * j + P := by omega
      have e2 : D + P * (j + 1) - 1 - D = P * j + (P - 1) := by omega
      rw [e1, e2]
      simp only [Nat.mul_add_mod, Nat.mul_add_div (show 0 < P by omega),
        Nat.mod_self, Nat.div_self (show 0 < P by omega),
        Nat.div_eq_of_lt (show P - 1 < P by omega)]
      simp
  · intro hk
    rw [periodic_state hf hD1 hD2 hP1 hP2, periodic_state hf hD1 hD2 hP1 hP2]
    by_cases hnD : n < D
    · rw [if_pos hnD, if_pos (by omega)]
    · have hm0 : (n - D) % P ≠ 0 := by
        intro h0
        exact hk ⟨(n - D) / P, by omega⟩
      have hne : n ≠ D := by
        intro h
        apply hm0
        rw [h]
        simp
      rw [if_neg (by omega), if_neg (by omega)]
      dsimp only
      have e : n - 1 - D = P * ((n - D) / P) + ((n - D) % P - 1) := by omega
      rw [e, Nat.mul_add_div (by omega),
        Nat.div_eq_of_lt (by omega : (n - D) % P - 1 < P)]

/-! ### One-shot slots and table-level update/dispatch lemmas -/

lemma updateTask_iterate_empty (n : Nat) :
    updateTask^[n] emptyTask = emptyTask := by
  induction n with
  | zero => rfl
  | succ n ih => rw [Function.iterate_succ_apply', ih, updateTask_empty]

/-- Evolution of a one-shot slot (period `0`) up to and including its due
tick `D`. -/
lemma oneShot_state {f c D : Nat} (hf : f ≠ 0) (hD1 : 1 ≤ D) (hD2 : D < U32)
    (n : Nat) (hn : n ≤ D) :
    updateTask^[n] (⟨f, c, D, 0, 0⟩ : STask) =
      if n < D then ⟨f, c, D - n, 0, 0⟩ else ⟨f, c, 0, 0, 1⟩ := by
  by_cases h : n < D
  · rw [if_pos h, updateTask_countdown hf hD2 n h]
  · have hnD : n = D := by omega
    rw [hnD, if_neg (by omega)]
    have hfire := updateTask_fireStep (t := (⟨f, c, D, 0, 0⟩ : STask)) hf hD1 hD2
    simpa using hfire

lemma schedulerUpdate_iterate (s : SchedState) (n : Nat) :
    schedulerUpdate^[n] s = ⟨s.tasks.map updateTask^[n], s.errorCode⟩ := by
  induction n with
  | zero => simp
  | succ n ih =>
      rw [Function.iterate_succ_apply', ih]
      simp only [schedulerUpdate, List.map_map, ← Function.iterate_succ']

/-- A dispatcher pass over a table with no due slot does nothing and
invokes nothing. -/
lemma dispatch_no_due {ticks : Nat} {s : SchedState}
    (h : ∀ t ∈ s.tasks, t.runMe = 0) :
    schedulerDispatchTasks ticks s = (s, []) := by
  unfold schedulerDispatchTasks
  have hmap : s.tasks.map (dispatchTask ticks)
      = s.tasks.map (fun t => (t, [], false)) := by
    apply List.map_congr_left
    intro t ht
    unfold dispatchTask
    rw [if_neg (by rw [h t ht]; omega)]
  rw [hmap]
  simp [List.map_map, Function.comp]
  have hid : List.map ((fun x => x.1) ∘
      fun t : STask => (t, ([] : List (Nat × Nat × Nat)), false)) s.tasks
      = List.map id s.tasks := rfl
  rw [hid, List.map_id]

lemma update_allEmpty {s : SchedState} (h : AllEmpty s) :
    AllEmpty (schedulerUpdate s) := by
  intro t ht
  unfold schedulerUpdate at ht
  simp at ht
  obtain ⟨u, hu, rfl⟩ := ht
  rw [h u hu, updateTask_empty]

lemma dispatch_allEmpty {ticks : Nat} {s : SchedState} (h : AllEmpty s) :
    schedulerDispatchTasks ticks s = (s, []) := by
  apply dispatch_no_due
  intro t ht
  rw [h t ht]
  rfl

/-- The state right after registering a single one-shot task into a fresh
table: the task sits in slot `0`, everything else is empty. -/
lemma oneShot_setup {f c D cap : Nat} (hD2 : D < U32) (hcap : 1 ≤ cap) :
    (schedulerAddTask f c D 0 (schedulerInit cap)).2 =
      ⟨⟨f, c, D, 0, 0⟩ :: List.replicate (cap - 1) emptyTask, 0⟩ := by
  obtain ⟨k, rfl⟩ : ∃ k, cap = k + 1 := ⟨cap - 1, by omega⟩
  unfold schedulerAddTask schedulerInit
  simp [List.replicate_succ, firstFree, emptyTask, Nat.mod_eq_of_lt hD2]

lemma flatten_replicate_nil (k : Nat) :
    (List.replicate k ([] : List (Nat × Nat × Nat))).flatten = [] := by
  induction k with
  | zero => rfl
  | succ k ih => simp [List.replicate_succ, ih]

lemma any_flag_replicate (k : Nat) :
    (List.replicate k
      ((emptyTask, [], false) : STask × List (Nat × Nat × Nat) × Bool)).any
        (·.2.2) = false := by
  induction k with
  | zero => rfl
  | succ k ih => simp [List.replicate_succ, ih]

/-- State of the single-one-shot scenario after `n ≤ D` tick updates. -/
lemma oneShot_scenario_state {f c D cap : Nat} (hf : f ≠ 0) (hD1 : 1 ≤ D)
    (hD2 : D < U32) (hcap : 1 ≤ cap) (n : Nat) (hn : n ≤ D) :
    schedulerUpdate^[n] (schedulerAddTask f c D 0 (schedulerInit cap)).2 =
      ⟨(if n < D then (⟨f, c, D - n, 0, 0⟩ : STask) else ⟨f, c, 0, 0, 1⟩) ::
        List.replicate (cap - 1) emptyTask, 0⟩ := by
  rw [oneShot_setup hD2 hcap, schedulerUpdate_iterate]
  dsimp only
  rw [List.map_cons, List.map_replicate, updateTask_iterate_empty,
    oneShot_state hf hD1 hD2 n hn]

/-- Dispatching a table whose head slot is a due one-shot task and whose
other slots are empty: the task is invoked once and its slot zeroed. -/
lemma dispatch_oneShot_due {f c : Nat} (ticks : Nat) (hf : f ≠ 0) (k : Nat) :
    schedulerDispatchTasks ticks
        ⟨(⟨f, c, 0, 0, 1⟩ : STask) :: List.replicate k emptyTask, 0⟩
      = (⟨emptyTask :: List.replicate k emptyTask, 0⟩, [(f, c, ticks)]) := by
  unfold schedulerDispatchTasks dispatchTask
  simp [List.map_replicate, hf, any_flag_replicate, flatten_replicate_nil,
    emptyTask]

/-- C2 (amended to `D ≥ 1`): a one-shot task (period `0`) registered with
delay `D ≥ 1` into a fresh table is not due before tick `D` (dispatch does
nothing and invokes nothing), becomes due exactly at tick `D`, at which
point one dispatcher pass invokes it exactly once and zeroes its slot, so
the table is entirely empty afterwards; and from any all-empty state,
updates keep the table empty and dispatch passes invoke nothing, so the
task never fires again. -/
theorem one_shot_fires_once_at_delay_then_removed
    (f c D cap ticks n : Nat) (s' : SchedState)
    (hf : f ≠ 0) (hD1 : 1 ≤ D) (hD2 : D < U32) (hcap : 1 ≤ cap)
    (hn : n < D) (hs' : AllEmpty s') :
    schedulerDispatchTasks ticks
        (schedulerUpdate^[n] (schedulerAddTask f c D 0 (schedulerInit cap)).2)
      = (schedulerUpdate^[n] (schedulerAddTask f c D 0 (schedulerInit cap)).2,
          [])
    ∧ (((schedulerUpdate^[D]
          (schedulerAddTask f c D 0 (schedulerInit cap)).2)).tasks.getD 0
            emptyTask).runMe = 1
    ∧ (schedulerDispatchTasks ticks (schedulerUpdate^[D]
          (schedulerAddTask f c D 0 (schedulerInit cap)).2)).2 = [(f, c, ticks)]
    ∧ AllEmpty (schedulerDispatchTasks ticks (schedulerUpdate^[D]
          (schedulerAddTask f c D 0 (schedulerInit cap)).2)).1
    ∧ AllEmpty (schedulerUpdate s')
    ∧ schedulerDispatchTasks ticks s' = (s', []) := by
  have hD := oneShot_scenario_state (c := c) hf hD1 hD2 hcap D
    (le_refl D)
  rw [if_neg (lt_irrefl D)] at hD
  refine ⟨?_, ?_, ?_, ?_, update_allEmpty hs', dispatch_allEmpty hs'⟩
  · rw [oneShot_scenario_state hf hD1 hD2 hcap n (le_of_lt hn), if_pos hn]
    apply dispatch_no_due
    intro t ht
    rcases List.mem_cons.mp ht with rfl | ht
    · rfl
    · rw [List.eq_of_mem_replicate ht]
      rfl
  · rw [hD]
    rfl
  · rw [hD, dispatch_oneShot_due ticks hf]
  · rw [hD, dispatch_oneShot_due ticks hf]
    intro t ht
    rcases List.mem_cons.mp ht with rfl | ht
    · rfl
    · exact List.eq_of_mem_replicate ht

/-- Witness for the one-shot theorem at `f = 1`, `c = 2`, `D = 1`,
`cap = 1`, tick count `7`: the single dispatch invocation is recorded. -/
theorem one_shot_fires_once_witness :
    (schedulerDispatchTasks 7 (schedulerUpdate^[1]
        (schedulerAddTask 1 2 1 0 (schedulerInit 1)).2)).2 = [(1, 2, 7)] :=
  (one_shot_fires_once_at_delay_then_removed 1 2 1 1 7 0 (schedulerInit 1)
    (by decide) (by decide) (by decide) (by decide) (by decide)
    (fun t ht => by simp [schedulerInit] at ht; exact ht)).2.2.1

/-- C2 counterexample at `D = 0`: the claim says a one-shot task with
delay `0` is invoked exactly once at tick `0` (within one tick update),
but after registration the slot is not due at tick `0` nor at tick `1` (no
dispatch invokes anything), because the unsigned pre-decrement wraps its
delay from `0` to `2^32 - 1`. -/
theorem one_shot_delay_zero_never_due_counterexample :
    (schedulerDispatchTasks 0
        (schedulerAddTask 1 0 0 0 (schedulerInit 1)).2).2 = []
    ∧ (schedulerDispatchTasks 1
        (schedulerUpdate (schedulerAddTask 1 0 0 0 (schedulerInit 1)).2)).2 = []
    ∧ ((schedulerUpdate
        (schedulerAddTask 1 0 0 0 (schedulerInit 1)).2).tasks.getD 0
          emptyTask).runMe = 0
    ∧ ((schedulerUpdate
        (schedulerAddTask 1 0 0 0 (schedulerInit 1)).2).tasks.getD 0
          emptyTask).delay = 4294967295 := by
  refine ⟨?_, ?_, ?_, ?_⟩ <;> decide

/-- Witness for the periodic-task theorem at `D = 1`, `P = 1`, `n = 1`:
the first due-count increment happens at tick `1` and delay reloads. -/
theorem periodic_task_fires_witness :
    (updateTask^[1] (⟨1, 0, 1, 1, 0⟩ : STask)).runMe
      = (updateTask^[0] (⟨1, 0, 1, 1, 0⟩ : STask)).runMe + 1
    ∧ (updateTask^[1] (⟨1, 0, 1, 1, 0⟩ : STask)).delay = 1 := by
  have h := (periodic_task_fires_at_delay_then_every_period 1 0 1 1 1
    (by decide) (by decide) (by decide) (by decide) (by decide)
    (by decide)).1 ⟨0, by decide⟩
  exact ⟨h.1, h.2.1⟩

/-- C1 counterexample at `D = 0`: a task registered with delay `0` and
period `5` should (per the claim) have its due count incremented at tick
`5 = D + P`, but after five tick updates its due count is still `0`: the
unsigned pre-decrement wrapped its delay to `2^32 - 1` at the first tick
and it has been counting down from there since. -/
theorem periodic_delay_zero_no_fire_counterexample :
    ((schedulerUpdate^[5]
        (schedulerAddTask 1 0 0 5 (schedulerInit 1)).2).tasks.getD 0
          emptyTask).runMe = 0
    ∧ ((schedulerUpdate^[5]
        (schedulerAddTask 1 0 0 5 (schedulerInit 1)).2).tasks.getD 0
          emptyTask).delay = 4294967291 := by
  refine ⟨?_, ?_⟩ <;> decide

/-! ### Registry: AddTask -/

lemma getD_set_self (l : List STask) (i : Nat) (a : STask)
    (h : i < l.length) : (l.set i a).getD i emptyTask = a := by
  rw [List.getD_eq_getElem?_getD, List.getElem?_set_self (by simpa using h)]
  rfl

lemma getD_set_ne (l : List STask) {i j : Nat} (a : STask) (h : j ≠ i) :
    (l.set i a).getD j emptyTask = l.getD j emptyTask := by
  rw [List.getD_eq_getElem?_getD, List.getElem?_set_ne (by omega),
    ← List.getD_eq_getElem?_getD]

lemma firstFree_eq_none_iff (l : List STask) :
    firstFree l = none ↔ ∀ t ∈ l, t.pTask ≠ 0 := by
  induction l with
  | nil => simp [firstFree]
  | cons t ts ih =>
      unfold firstFree
      by_cases h : t.pTask = 0
      · simp [h]
      · simp [h, ih, Option.map_eq_none']

/-- Correctness of the linear first-free scan: the returned index is in
range, free, and every lower index is occupied. -/
lemma firstFree_spec (l : List STask) (i : Nat) (h : firstFree l = some i) :
    i < l.length ∧ (l.getD i emptyTask).pTask = 0
      ∧ ∀ j, j < i → (l.getD j emptyTask).pTask ≠ 0 := by
  induction l generalizing i with
  | nil => simp [firstFree] at h
  | cons t ts ih =>
      unfold firstFree at h
      by_cases hp : t.pTask = 0
      · rw [if_pos hp] at h
        obtain rfl : i = 0 := by simpa using h.symm
        exact ⟨by simp, by simpa using hp, fun j hj => absurd hj (by omega)⟩
      · rw [if_neg hp] at h
        obtain ⟨i', hi', rfl⟩ := Option.map_eq_some'.mp h
        obtain ⟨h1, h2, h3⟩ := ih i' hi'
        refine ⟨by simpa using h1, by simpa using h2, ?_⟩
        intro j hj
        cases j with
        | zero => simpa using hp
        | succ j => simpa using h3 j (by omega)

/-- C3: when every slot is occupied, `schedulerAddTask` returns the
sentinel `SCHEDULER_MAX_TASKS` (the table length), latches the global
error code `2`, and leaves the task table untouched; and (trivially, since
slots live in a fixed table) the number of occupied slots never exceeds
the table length. -/
theorem addTask_table_full (s : SchedState) (f c d p : Nat)
    (hfull : ∀ t ∈ s.tasks, t.pTask ≠ 0) :
    schedulerAddTask f c d p s = (s.tasks.length, { s with errorCode := 2 })
    ∧ occupiedCount s.tasks ≤ s.tasks.length := by
  unfold schedulerAddTask
  rw [(firstFree_eq_none_iff s.tasks).mpr hfull]
  exact ⟨rfl, List.length_filter_le _ _⟩

/-- Witness for the table-full theorem: a one-slot table holding a task. -/
theorem addTask_table_full_witness :
    schedulerAddTask 9 9 9 9 ⟨[⟨1, 0, 5, 5, 0⟩], 0⟩
      = (1, ⟨[⟨1, 0, 5, 5, 0⟩], 2⟩)
    ∧ occupiedCount [⟨1, 0, 5, 5, 0⟩] ≤ 1 :=
  addTask_table_full ⟨[⟨1, 0, 5, 5, 0⟩], 0⟩ 9 9 9 9
    (fun t ht => by simp at ht; rw [ht]; decide)

/-- C4: with at least one free slot, `schedulerAddTask` writes the free
slot of lowest index with exactly the given callable, context, delay and
period and a zero due count, returns that index, and changes nothing
else (all other slots and the error code are untouched). -/
theorem addTask_writes_lowest_free_slot (s : SchedState) (i j f c d p : Nat)
    (hfree : firstFree s.tasks = some i) (hd : d < U32) (hp : p < U32)
    (hj : j ≠ i) :
    (schedulerAddTask f c d p s).1 = i
    ∧ i < s.tasks.length
    ∧ (s.tasks.getD i emptyTask).pTask = 0
    ∧ (∀ k, k < i → (s.tasks.getD k emptyTask).pTask ≠ 0)
    ∧ (schedulerAddTask f c d p s).2.tasks.getD i emptyTask = ⟨f, c, d, p, 0⟩
    ∧ (schedulerAddTask f c d p s).2.tasks.getD j emptyTask
        = s.tasks.getD j emptyTask
    ∧ (schedulerAddTask f c d p s).2.errorCode = s.errorCode := by
  obtain ⟨h1, h2, h3⟩ := firstFree_spec s.tasks i hfree
  unfold schedulerAddTask
  rw [hfree]
  refine ⟨rfl, h1, h2, h3, ?_, ?_, rfl⟩
  · dsimp only
    rw [getD_set_self _ _ _ h1, Nat.mod_eq_of_lt hd, Nat.mod_eq_of_lt hp]
  · dsimp only
    rw [getD_set_ne _ _ hj]

/-- Witness for the lowest-free-slot theorem: slot 0 occupied, slot 1
free, a new task lands in slot 1 and slot 0 is untouched. -/
theorem addTask_writes_lowest_free_slot_witness :
    (schedulerAddTask 7 8 9 10 ⟨[⟨1, 0, 5, 5, 0⟩, emptyTask], 0⟩).1 = 1
    ∧ (schedulerAddTask 7 8 9 10
        ⟨[⟨1, 0, 5, 5, 0⟩, emptyTask], 0⟩).2.tasks.getD 1 emptyTask
          = ⟨7, 8, 9, 10, 0⟩
    ∧ (schedulerAddTask 7 8 9 10
        ⟨[⟨1, 0, 5, 5, 0⟩, emptyTask], 0⟩).2.tasks.getD 0 emptyTask
          = ⟨1, 0, 5, 5, 0⟩ := by
  have h := addTask_writes_lowest_free_slot ⟨[⟨1, 0, 5, 5, 0⟩, emptyTask], 0⟩
    1 0 7 8 9 10 (by decide) (by decide) (by decide) (by decide)
  exact ⟨h.1, h.2.2.2.2.1, by rw [h.2.2.2.2.2.1]; decide⟩

/-! ### Registry: DeleteTask -/

/-- C7: `schedulerDeleteTask` fails with `-1` and no effect whatsoever on
an out-of-range index; fails with `-1` and latches `errorCode = 2` on an
empty slot (zeroing that slot, which was already free); succeeds with `0`
on an occupied slot, zeroing exactly that slot; in all cases no other slot
changes, and after a successful delete a repeated delete of the same index
reports `-1` and leaves the task table identical (idempotence). -/
theorem deleteTask_cases (s : SchedState) (i j : Nat) (hj : j ≠ i) :
    (s.tasks.length ≤ i → schedulerDeleteTask i s = (-1, s))
    ∧ (i < s.tasks.length → (s.tasks.getD i emptyTask).pTask = 0 →
        (schedulerDeleteTask i s).1 = -1
        ∧ (schedulerDeleteTask i s).2.errorCode = 2
        ∧ (schedulerDeleteTask i s).2.tasks.getD i emptyTask = emptyTask
        ∧ (schedulerDeleteTask i s).2.tasks.getD j emptyTask
            = s.tasks.getD j emptyTask)
    ∧ (i < s.tasks.length → (s.tasks.getD i emptyTask).pTask ≠ 0 →
        (schedulerDeleteTask i s).1 = 0
        ∧ (schedulerDeleteTask i s).2.errorCode = s.errorCode
        ∧ (schedulerDeleteTask i s).2.tasks.getD i emptyTask = emptyTask
        ∧ (schedulerDeleteTask i s).2.tasks.getD j emptyTask
            = s.tasks.getD j emptyTask
        ∧ (schedulerDeleteTask i (schedulerDeleteTask i s).2).1 = -1
        ∧ (schedulerDeleteTask i (schedulerDeleteTask i s).2).2.tasks
            = (schedulerDeleteTask i s).2.tasks) := by
  refine ⟨?_, ?_, ?_⟩
  · intro h
    unfold schedulerDeleteTask
    rw [if_pos h]
  · intro h1 h2
    unfold schedulerDeleteTask
    rw [if_neg (by omega), if_pos h2]
    exact ⟨rfl, rfl, getD_set_self _ _ _ h1, getD_set_ne _ _ hj⟩
  · intro h1 h2
    have hdel : schedulerDeleteTask i s
        = (0, { s with tasks := s.tasks.set i emptyTask }) := by
      unfold schedulerDeleteTask
      rw [if_neg (by omega), if_neg h2]
    rw [hdel]
    have hlen : i < (s.tasks.set i emptyTask).length := by
      simpa using h1
    have hget : (s.tasks.set i emptyTask).getD i emptyTask = emptyTask :=
      getD_set_self _ _ _ h1
    refine ⟨rfl, rfl, hget, getD_set_ne _ _ hj, ?_, ?_⟩
    · unfold schedulerDeleteTask
      dsimp only
      rw [if_neg (by simp [List.length_set]; omega), hget,
        if_pos (show emptyTask.pTask = 0 from rfl)]
    · unfold schedulerDeleteTask
      dsimp only
      rw [if_neg (by simp [List.length_set]; omega), hget,
        if_pos (show emptyTask.pTask = 0 from rfl)]
      dsimp only
      rw [List.set_set]

/-- Witness for the delete theorem: deleting the occupied slot 0 of a
two-slot table succeeds, zeroes it, keeps slot 1, and a second delete of
the same index reports the empty-slot error with the table unchanged. -/
theorem deleteTask_cases_witness :
    (schedulerDeleteTask 0 ⟨[⟨1, 0, 5, 5, 0⟩, emptyTask], 0⟩).1 = 0
    ∧ (schedulerDeleteTask 0
        ⟨[⟨1, 0, 5, 5, 0⟩, emptyTask], 0⟩).2.errorCode
          = (⟨[⟨1, 0, 5, 5, 0⟩, emptyTask], 0⟩ : SchedState).errorCode
    ∧ (schedulerDeleteTask 0
        ⟨[⟨1, 0, 5, 5, 0⟩, emptyTask], 0⟩).2.tasks.getD 0 emptyTask
          = emptyTask
    ∧ (schedulerDeleteTask 0
        ⟨[⟨1, 0, 5, 5, 0⟩, emptyTask], 0⟩).2.tasks.getD 1 emptyTask
          = (⟨[⟨1, 0, 5, 5, 0⟩, emptyTask], 0⟩ : SchedState).tasks.getD 1
              emptyTask
    ∧ (schedulerDeleteTask 0
        (schedulerDeleteTask 0 ⟨[⟨1, 0, 5, 5, 0⟩, emptyTask], 0⟩).2).1 = -1
    ∧ (schedulerDeleteTask 0
        (schedulerDeleteTask 0 ⟨[⟨1, 0, 5, 5, 0⟩, emptyTask], 0⟩).2).2.tasks
          = (schedulerDeleteTask 0 ⟨[⟨1, 0, 5, 5, 0⟩, emptyTask], 0⟩).2.tasks :=
  (deleteTask_cases ⟨[⟨1, 0, 5, 5, 0⟩, emptyTask], 0⟩ 0 1 (by decide)).2.2
    (by decide) (by decide)

/-! ### Registry: ModifyTaskPeriod -/

lemma getD_map_update (l : List STask) (n i : Nat) (h : i < l.length) :
    (l.map updateTask^[n]).getD i emptyTask
      = updateTask^[n] (l.getD i emptyTask) := by
  have h1 : l[i]? = some (l.getD i emptyTask) := by
    rw [List.getD_eq_getElem?_getD, List.getElem?_eq_getElem (by simpa using h)]
    rfl
  rw [List.getD_eq_getElem?_getD, List.getElem?_map, h1]
  rfl

/-- Changing only the period of a slot does not change when its pending
countdown expires: the due count agrees with the unmodified slot at every
tick up to and including the pending expiry. -/
lemma updateTask_runMe_agree (t : STask) (q n : Nat) (hocc : t.pTask ≠ 0)
    (hd : t.delay < U32) (hn : n ≤ t.delay) :
    (updateTask^[n] { t with period := q }).runMe
      = (updateTask^[n] t).runMe := by
  rcases Nat.lt_or_ge n t.delay with h | h
  · rw [updateTask_countdown hocc hd n h,
      updateTask_countdown (t := { t with period := q }) hocc
        (by simpa using hd) n (by simpa using h)]
  · have hn' : n = t.delay := by omega
    rcases Nat.eq_zero_or_pos t.delay with h0 | h0
    · have : n = 0 := by omega
      rw [this]
      simp
    · have hf1 := updateTask_fireStep hocc h0 hd
      have hf2 := updateTask_fireStep (t := { t with period := q }) hocc
        (by simpa using h0) (by simpa using hd)
      simp only at hf2
      rw [hn', hf1, hf2]

/-- C8: on an occupied slot, `schedulerModifyTaskPeriod` succeeds and
updates only the `period` field of that slot — its callable, context,
delay and due count, every other slot, and the error code are unchanged —
and the pending countdown still expires at the originally scheduled tick:
the slot's due count agrees with the unmodified table at every tick up to
and including the pending expiry. -/
theorem modifyTaskPeriod_only_period (s : SchedState) (i j n q : Nat)
    (hi : i < s.tasks.length) (hocc : (s.tasks.getD i emptyTask).pTask ≠ 0)
    (hj : j ≠ i) (hn : n ≤ (s.tasks.getD i emptyTask).delay)
    (hd : (s.tasks.getD i emptyTask).delay < U32) (hq : q < U32) :
    (schedulerModifyTaskPeriod i q s).1 = 0
    ∧ (schedulerModifyTaskPeriod i q s).2.tasks.getD i emptyTask
        = { s.tasks.getD i emptyTask with period := q }
    ∧ (schedulerModifyTaskPeriod i q s).2.tasks.getD j emptyTask
        = s.tasks.getD j emptyTask
    ∧ (schedulerModifyTaskPeriod i q s).2.errorCode = s.errorCode
    ∧ ((schedulerUpdate^[n] (schedulerModifyTaskPeriod i q s).2).tasks.getD i
          emptyTask).runMe
        = ((schedulerUpdate^[n] s).tasks.getD i emptyTask).runMe := by
  have hmod : schedulerModifyTaskPeriod i q s
      = (0, { s with
                tasks := s.tasks.set i
                  { s.tasks.getD i emptyTask with period := q } }) := by
    unfold schedulerModifyTaskPeriod
    rw [if_neg (by omega), if_neg (by simpa using hocc),
      Nat.mod_eq_of_lt hq]
  rw [hmod]
  refine ⟨rfl, getD_set_self _ _ _ hi, getD_set_ne _ _ hj, rfl, ?_⟩
  rw [schedulerUpdate_iterate, schedulerUpdate_iterate]
  dsimp only
  rw [getD_map_update _ _ _ (by simpa using hi), getD_map_update _ _ _ hi,
    getD_set_self _ _ _ hi]
  exact updateTask_runMe_agree _ q n hocc hd hn

/-- Witness for the modify theorem: changing the period of the slot
`⟨1, 0, 3, 5, 0⟩` to `9` leaves its countdown intact — after three ticks
the due count is the same as without the modification. -/
theorem modifyTaskPeriod_only_period_witness :
    (schedulerModifyTaskPeriod 0 9 ⟨[⟨1, 0, 3, 5, 0⟩], 0⟩).1 = 0
    ∧ (schedulerModifyTaskPeriod 0 9
        ⟨[⟨1, 0, 3, 5, 0⟩], 0⟩).2.tasks.getD 0 emptyTask
          = { (⟨[⟨1, 0, 3, 5, 0⟩], 0⟩ : SchedState).tasks.getD 0 emptyTask
                with period := 9 }
    ∧ ((schedulerUpdate^[3]
        (schedulerModifyTaskPeriod 0 9 ⟨[⟨1, 0, 3, 5, 0⟩], 0⟩).2).tasks.getD 0
          emptyTask).runMe
        = ((schedulerUpdate^[3]
            (⟨[⟨1, 0, 3, 5, 0⟩], 0⟩ : SchedState)).tasks.getD 0
              emptyTask).runMe := by
  have h := modifyTaskPeriod_only_period ⟨[⟨1, 0, 3, 5, 0⟩], 0⟩ 0 1 3 9
    (by decide) (by decide) (by decide) (by decide) (by decide) (by decide)
  exact ⟨h.1, h.2.1, h.2.2.2.2⟩

/-! ### Error latching across the Registry calls -/

/-- C9 (amended): of the Registry failure modes, only `schedulerAddTask`'s
table-full failure and `schedulerDeleteTask`'s empty-slot failure latch the
process-wide error code (`errorCode = 2`); `schedulerDeleteTask`'s
out-of-range failure and both failure modes of `schedulerModifyTaskPeriod`
return `-1` synchronously but leave the state — including the latched
error code — completely unchanged. -/
theorem registry_error_latching (s : SchedState) (f c d p i q : Nat) :
    (firstFree s.tasks = none →
        schedulerAddTask f c d p s
          = (s.tasks.length, { s with errorCode := 2 }))
    ∧ (s.tasks.length ≤ i → schedulerDeleteTask i s = (-1, s))
    ∧ (i < s.tasks.length → (s.tasks.getD i emptyTask).pTask = 0 →
        (schedulerDeleteTask i s).1 = -1
        ∧ (schedulerDeleteTask i s).2.errorCode = 2)
    ∧ ((s.tasks.length ≤ i
          ∨ (i < s.tasks.length ∧ (s.tasks.getD i emptyTask).pTask = 0)) →
        schedulerModifyTaskPeriod i q s = (-1, s)) := by
  refine ⟨?_, ?_, ?_, ?_⟩
  · intro h
    unfold schedulerAddTask
    rw [h]
  · intro h
    unfold schedulerDeleteTask
    rw [if_pos h]
  · intro h1 h2
    unfold schedulerDeleteTask
    rw [if_neg (by omega), if_pos h2]
    exact ⟨rfl, rfl⟩
  · rintro (h | ⟨h1, h2⟩)
    · unfold schedulerModifyTaskPeriod
      rw [if_pos h]
    · unfold schedulerModifyTaskPeriod
      rw [if_neg (by omega), if_pos h2]

/-- Witness for the error-latching theorem: a full one-slot table rejects
an add and latches the error, while a modify aimed past the table fails
without touching the state. -/
theorem registry_error_latching_witness :
    schedulerAddTask 7 7 7 7 ⟨[⟨1, 0, 5, 5, 0⟩], 0⟩
      = (1, ⟨[⟨1, 0, 5, 5, 0⟩], 2⟩)
    ∧ schedulerModifyTaskPeriod 1 9 ⟨[⟨1, 0, 5, 5, 0⟩], 0⟩
      = (-1, ⟨[⟨1, 0, 5, 5, 0⟩], 0⟩) :=
  ⟨(registry_error_latching ⟨[⟨1, 0, 5, 5, 0⟩], 0⟩ 7 7 7 7 1 9).1 (by decide),
   (registry_error_latching ⟨[⟨1, 0, 5, 5, 0⟩], 0⟩ 7 7 7 7 1 9).2.2.2
      (Or.inl (by decide))⟩

/-- C9 counterexample: `schedulerModifyTaskPeriod` on an empty slot fails
with `-1` but does not latch the process-wide error code — it stays `0`,
contradicting the claim that every failing Registry call latches the
last-error value. -/
theorem modify_failure_not_latched_counterexample :
    (schedulerModifyTaskPeriod 0 5 (schedulerInit 1)).1 = -1
    ∧ (schedulerModifyTaskPeriod 0 5 (schedulerInit 1)).2.errorCode = 0 := by
  constructor <;> decide

/-! ### Per-tick delay evolution (claims about the delay invariant) -/

/-- C5 (amended): across one tick update, an occupied slot's delay is
decremented by one while at least `2`; a delay of `1` expires, reloading to
the period (or to `0` for a one-shot); but a slot whose delay is already
`0` (a spent, undispatched one-shot) has its delay wrapped by the unsigned
pre-decrement to `2^32 - 1` — the delay does not remain at zero and in
that single case it increases. -/
theorem delay_step_characterization (t : STask) (hocc : t.pTask ≠ 0)
    (hd : t.delay < U32) :
    (2 ≤ t.delay → updateTask t = { t with delay := t.delay - 1 })
    ∧ (t.delay = 1 →
        updateTask t = { t with delay := if t.period = 0 then 0 else t.period,
                                runMe := t.runMe + 1 })
    ∧ (t.delay = 0 → updateTask t = { t with delay := U32 - 1 }) :=
  ⟨fun h => updateTask_decrement hocc h hd,
   fun h => updateTask_fire hocc h,
   fun h => updateTask_wrap hocc h⟩

/-- Witness for the delay-step theorem: a delay of `2` decrements to `1`. -/
theorem delay_step_characterization_witness :
    updateTask ⟨1, 0, 2, 5, 0⟩ = ⟨1, 0, 1, 5, 0⟩ :=
  (delay_step_characterization ⟨1, 0, 2, 5, 0⟩ (by decide) (by decide)).1
    (by decide)

/-- C5 counterexample: a reachable state (register a one-shot with delay
`1`, run one tick) holds an occupied slot with `period = 0` and
`delay = 0`; the next tick update raises its delay to `2^32 - 1`, so the
delay neither remains at zero nor only ever decreases. -/
theorem spent_one_shot_delay_increases_counterexample :
    ((schedulerUpdate
        (schedulerAddTask 1 0 1 0 (schedulerInit 1)).2).tasks.getD 0
          emptyTask).delay = 0
    ∧ ((schedulerUpdate
        (schedulerAddTask 1 0 1 0 (schedulerInit 1)).2).tasks.getD 0
          emptyTask).period = 0
    ∧ ((schedulerUpdate
        (schedulerAddTask 1 0 1 0 (schedulerInit 1)).2).tasks.getD 0
          emptyTask).pTask = 1
    ∧ ((schedulerUpdate (schedulerUpdate
        (schedulerAddTask 1 0 1 0 (schedulerInit 1)).2)).tasks.getD 0
          emptyTask).delay = 4294967295 := by
  refine ⟨?_, ?_, ?_, ?_⟩ <;> decide

/-- C6 (amended): a spent, undispatched one-shot slot (occupied,
`period = 0`, `delay = 0`) does *not* have its due count incremented again
by a further tick update; instead the unsigned pre-decrement wraps its
delay to `2^32 - 1` (so it would only fire again after `2^32` more ticks),
leaving the due count unchanged — missed one-shot dispatches do not
accumulate. -/
theorem spent_one_shot_no_further_increment (t : STask) (hocc : t.pTask ≠ 0)
    (_hper : t.period = 0) (hdel : t.delay = 0) :
    updateTask t = { t with delay := U32 - 1 }
    ∧ (updateTask t).runMe = t.runMe := by
  have h := updateTask_wrap hocc hdel
  exact ⟨h, by rw [h]⟩

/-- Witness for the spent-one-shot theorem at a concrete slot. -/
theorem spent_one_shot_no_further_increment_witness :
    updateTask ⟨1, 0, 0, 0, 3⟩ = ⟨1, 0, 4294967295, 0, 3⟩
    ∧ (updateTask ⟨1, 0, 0, 0, 3⟩).runMe = 3 :=
  spent_one_shot_no_further_increment ⟨1, 0, 0, 0, 3⟩ (by decide) (by decide)
    (by decide)

/-- C6 counterexample: after a one-shot with delay `1` becomes due
(`dueCount = 1`) and is left undispatched, one further tick update leaves
its due count at `1`, not `2` as the accumulation claim requires. -/
theorem missed_one_shot_does_not_accumulate_counterexample :
    ((schedulerUpdate
        (schedulerAddTask 1 0 1 0 (schedulerInit 1)).2).tasks.getD 0
          emptyTask).runMe = 1
    ∧ ((schedulerUpdate (schedulerUpdate
        (schedulerAddTask 1 0 1 0 (schedulerInit 1)).2)).tasks.getD 0
          emptyTask).runMe = 1 := by
  constructor <;> decide

/-! ### The dispatcher never invokes a NULL callable (reachability
invariant) -/

lemma dueImpliesOccupied_set {l : List STask} (i : Nat) (a : STask)
    (h : ∀ t ∈ l, 0 < t.runMe → t.pTask ≠ 0)
    (ha : a.runMe = 0 ∨ a.pTask ≠ 0) :
    ∀ t ∈ l.set i a, 0 < t.runMe → t.pTask ≠ 0 := by
  intro t ht hr
  rcases List.mem_or_eq_of_mem_set ht with hm | hm
  · exact h t hm hr
  · rcases ha with h0 | h0
    · rw [hm, h0] at hr
      exact absurd hr (by omega)
    · rw [hm]
      exact h0

lemma dueImpliesOccupied_update {s : SchedState} (h : DueImpliesOccupied s) :
    DueImpliesOccupied (schedulerUpdate s) := by
  intro t ht hr
  unfold schedulerUpdate at ht
  simp only [List.mem_map] at ht
  obtain ⟨u, hu, rfl⟩ := ht
  rw [updateTask_pTask]
  by_cases hp : u.pTask = 0
  · have hid : updateTask u = u := by
      unfold updateTask
      rw [if_pos hp]
    rw [hid] at hr
    exact h u hu hr
  · exact hp

lemma dueImpliesOccupied_add {s : SchedState} (f c d p : Nat)
    (h : DueImpliesOccupied s) :
    DueImpliesOccupied (schedulerAddTask f c d p s).2 := by
  unfold schedulerAddTask
  cases hf : firstFree s.tasks with
  | none =>
      intro t ht hr
      exact h t ht hr
  | some i =>
      intro t ht hr
      exact dueImpliesOccupied_set i _ h (Or.inl rfl) t ht hr

lemma dueImpliesOccupied_del {s : SchedState} (i : Nat)
    (h : DueImpliesOccupied s) :
    DueImpliesOccupied (schedulerDeleteTask i s).2 := by
  unfold schedulerDeleteTask
  by_cases h1 : s.tasks.length ≤ i
  · rw [if_pos h1]
    exact h
  · rw [if_neg h1]
    by_cases h2 : (s.tasks.getD i emptyTask).pTask = 0
    · rw [if_pos h2]
      intro t ht hr
      exact dueImpliesOccupied_set i _ h (Or.inl rfl) t ht hr
    · rw [if_neg h2]
      intro t ht hr
      exact dueImpliesOccupied_set i _ h (Or.inl rfl) t ht hr

lemma dueImpliesOccupied_modify {s : SchedState} (i q : Nat)
    (h : DueImpliesOccupied s) :
    DueImpliesOccupied (schedulerModifyTaskPeriod i q s).2 := by
  unfold schedulerModifyTaskPeriod
  by_cases h1 : s.tasks.length ≤ i
  · rw [if_pos h1]
    exact h
  · rw [if_neg h1]
    by_cases h2 : (s.tasks.getD i emptyTask).pTask = 0
    · rw [if_pos h2]
      exact h
    · rw [if_neg h2]
      intro t ht hr
      exact dueImpliesOccupied_set i
        { s.tasks.getD i emptyTask with period := q % U32 } h (Or.inr h2)
        t ht hr

lemma dueImpliesOccupied_dispatch {ticks : Nat} {s : SchedState}
    (h : DueImpliesOccupied s) :
    DueImpliesOccupied (schedulerDispatchTasks ticks s).1 := by
  intro t ht hr
  unfold schedulerDispatchTasks at ht
  simp only [List.map_map, List.mem_map] at ht
  obtain ⟨u, hu, rfl⟩ := ht
  dsimp only [Function.comp] at hr ⊢
  unfold dispatchTask at hr ⊢
  by_cases h1 : 0 < u.runMe
  · by_cases h2 : u.period = 0
    · rw [if_pos h1, if_pos h2] at hr ⊢
      exact absurd hr (by simp [emptyTask])
    · rw [if_pos h1, if_neg h2] at hr ⊢
      exact h u hu h1
  · rw [if_neg h1] at hr ⊢
    exact h u hu hr

lemma noNullInvocation_of_dueImpliesOccupied {ticks : Nat} {s : SchedState}
    (h : DueImpliesOccupied s) : NoNullInvocation ticks s := by
  intro e he
  unfold schedulerDispatchTasks at he
  simp only [List.map_map, List.mem_flatten, List.mem_map] at he
  obtain ⟨l, ⟨u, hu, rfl⟩, hel⟩ := he
  dsimp only [Function.comp] at hel
  unfold dispatchTask at hel
  by_cases h1 : 0 < u.runMe
  · have hp := h u hu h1
    by_cases h2 : u.period = 0
    · rw [if_pos h1, if_pos h2] at hel
      obtain rfl : e = (u.pTask, u.context, ticks) := by simpa using hel
      exact hp
    · rw [if_pos h1, if_neg h2] at hel
      obtain rfl : e = (u.pTask, u.context, ticks) := by simpa using hel
      exact hp
  · rw [if_neg h1] at hel
    exact absurd hel (by simp)

/-- C10: in every state reachable from `schedulerInit` by tick updates,
Registry calls and dispatcher passes, every slot with a positive due count
holds a non-`NULL` callable; consequently no dispatcher pass on such a
state ever invokes a `NULL` callable. -/
theorem reachable_due_implies_occupied (cap : Nat) (s : SchedState)
    (ticks : Nat) (h : Reachable cap s) :
    DueImpliesOccupied s ∧ NoNullInvocation ticks s := by
  have hinv : DueImpliesOccupied s := by
    induction h with
    | refl =>
        intro t ht hr
        rw [List.eq_of_mem_replicate ht] at hr
        exact absurd hr (by decide)
    | tail hsteps hstep ih =>
        cases hstep with
        | update u => exact dueImpliesOccupied_update ih
        | add f c d p u => exact dueImpliesOccupied_add f c d p ih
        | del i u => exact dueImpliesOccupied_del i ih
        | modifyPeriod i q u => exact dueImpliesOccupied_modify i q ih
        | dispatch tk u => exact dueImpliesOccupied_dispatch ih
  exact ⟨hinv, noNullInvocation_of_dueImpliesOccupied hinv⟩

/-- Witness for the reachability invariant at a concrete reachable state:
register a periodic task and run one tick update. -/
theorem reachable_due_implies_occupied_witness :
    DueImpliesOccupied
      (schedulerUpdate (schedulerAddTask 1 0 1 1 (schedulerInit 1)).2)
    ∧ NoNullInvocation 5
      (schedulerUpdate (schedulerAddTask 1 0 1 1 (schedulerInit 1)).2) :=
  reachable_due_implies_occupied 1 _ 5
    (Relation.ReflTransGen.tail
      (Relation.ReflTransGen.tail Relation.ReflTransGen.refl
        (Step.add 1 0 1 1 _))
      (Step.update _))

end Copos
